import Mathlib

/-!
Verification of the coupon-campaign optimization notebook
(`notebooks/simple_opt.ipynb`).

The notebook generates a synthetic customer dataset (`create_customers`),
computes a business-as-usual (BAU) coupon policy (coupon = round of 10% of
CLTV), formulates a mixed-integer linear program with PuLP (binary variables
`x[(i,j)]`, one per (customer, candidate coupon) pair, per-customer equality
constraints, a global budget constraint, and a maximization objective), and
compares the expected return (ROI) of the two policies.

Numbers are modelled as rationals.  The Python code works with float64, but
on every value the notebook can produce (small integers, integers divided by
10 or 100, and their products and sums over at most a hundred terms after
rounding to an integer coupon) the float computations it performs agree with
exact rational arithmetic; in particular `round(v*0.1)` for integer `v` in
the CLTV domain agrees with round-half-to-even applied to the rational
`v/10`.  Randomness (`random.choices`) is made explicit: the random draws
are passed as an index function, and `choices` fails (Python: `IndexError`)
exactly when it must index into an empty population.  Fallible dataframe
column access (Python: `KeyError`) is modelled with `Option`.
-/

namespace CouponOpt

/-- A row of the customers dataframe: the acceptance probabilities
`prob_coupon_{j}` (aligned with the dataframe's coupon columns) and the
customer lifetime value `cltv`. -/
structure Row where
  probs : List ℚ
  cltv : ℚ
deriving DecidableEq

/-- The customers dataframe: the coupon values `j` of the
`prob_coupon_{j}` columns, and the rows. -/
structure DF where
  coupons : List ℤ
  rows : List Row
deriving DecidableEq

/-- Sequencing of a list of optional values: `some` of the list of contents
when all are `some`, `none` as soon as one is `none`.  Used to model a
Python list comprehension that can raise. -/
def seqOption {α : Type} : List (Option α) → Option (List α)
  | [] => some []
  | none :: _ => none
  | some a :: rest => (seqOption rest).map (fun l => a :: l)

/-- `random.choices(population, k=k)`: `k` independent draws from
`population`.  The random draw for step `t` is `draws t`, an index into the
population (Python draws `floor(random()*n)`).  Returns `none` exactly when
some draw indexes outside the population — in particular whenever the
population is empty and `k ≥ 1`, which is Python's `IndexError`. -/
def choices {α : Type} (population : List α) (k : ℕ) (draws : ℕ → ℕ) :
    Option (List α) :=
  seqOption ((List.range k).map (fun t => population.get? (draws t)))

/-- The multiplier population `np.arange(1, n, 1)/100` of
`create_customers`: the rationals `1/100, 2/100, …, (n-1)/100`.
Empty when `n ≤ 1`. -/
def multsPop (n : ℕ) : List ℚ :=
  (List.range (n - 1)).map (fun (i : ℕ) => ((i : ℚ) + 1) / 100)

/-- The CLTV population `np.arange(30, 120, 1)`: the integers `30, …, 119`
(as rationals, matching the float dataframe column). -/
def cltvsPop : List ℚ :=
  (List.range 90).map (fun (i : ℕ) => (i : ℚ) + 30)

/-- `create_customers(n, c)` from the notebook, with the random draws of
the two `choices` calls passed explicitly.  Builds `n` rows; row `i` has
acceptance probabilities `[1*m, 2*m, …, len(c)*m]` where `m` is the `i`-th
drawn multiplier, and the `i`-th drawn CLTV. -/
def create_customers (n : ℕ) (c : List ℤ) (multDraws cltvDraws : ℕ → ℕ) :
    Option DF :=
  match choices (multsPop n) n multDraws, choices cltvsPop n cltvDraws with
  | some randommults, some randomcltvs =>
    some { coupons := c,
           rows := (List.range n).map (fun i =>
             { probs := (List.range c.length).map
                 (fun (j : ℕ) => ((j : ℚ) + 1) * randommults.getD i 0),
               cltv := randomcltvs.getD i 0 }) }
  | _, _ => none

/-- Round half to even, the rounding used by Python's builtin `round` /
`numpy.round` on the notebook's values. -/
def roundHalfEven (q : ℚ) : ℤ :=
  if q - (⌊q⌋ : ℚ) < 1 / 2 then ⌊q⌋
  else if 1 / 2 < q - (⌊q⌋ : ℚ) then ⌊q⌋ + 1
  else if ⌊q⌋ % 2 = 0 then ⌊q⌋ else ⌊q⌋ + 1

/-- Dataframe column access `row['prob_coupon_{j}']` over the association
list of (coupon value, probability) pairs: `none` is Python's `KeyError`. -/
def colLookup (cols : List (ℤ × ℚ)) (j : ℤ) : Option ℚ :=
  match cols with
  | [] => none
  | (k, v) :: rest => if j = k then some v else colLookup rest j

/-- The `prob_coupon_{j}` columns of a row, as an association list keyed by
the dataframe's coupon values. -/
def probCols (dff : DF) (r : Row) : List (ℤ × ℚ) :=
  dff.coupons.zip r.probs

/-- `coupon_bau`: the BAU coupon of a row, `round(cltv*0.1)` cast to int. -/
def coupon_bau (r : Row) : ℤ :=
  roundHalfEven (r.cltv * (1 / 10))

/-- `prob_coupon_bau`: the acceptance probability of the BAU coupon,
looked up among the row's `prob_coupon_{j}` columns. -/
def prob_coupon_bau (dff : DF) (r : Row) : Option ℚ :=
  colLookup (probCols dff r) (coupon_bau r)

/-- `roi_bau`: expected net return of the row under the BAU coupon. -/
def roi_bau (dff : DF) (r : Row) : Option ℚ :=
  (prob_coupon_bau dff r).map (fun p => p * (r.cltv - (coupon_bau r : ℚ)))

/-- `ROI_BAU = df['roi_bau'].sum()`. -/
def ROI_BAU (dff : DF) : Option ℚ :=
  (seqOption (dff.rows.map (roi_bau dff))).map List.sum

/-! ### The PuLP optimization model -/

/-- `set_users = list(df.index)`: the row indices `0, …, n-1`. -/
def setUsers (dff : DF) : List ℕ :=
  List.range dff.rows.length

/-- `coupons_per_user = {i: coupons for i in set_users}`: every customer
has the same candidate coupon list, the dataframe's coupon values. -/
def couponsPerUser (dff : DF) (_ : ℕ) : List ℤ :=
  dff.coupons

/-- The row of customer `i` (valid for `i ∈ setUsers`). -/
def rowOf (dff : DF) (i : ℕ) : Row :=
  dff.rows.getD i ⟨[], 0⟩

/-- PuLP variable category. -/
inductive LpCat : Type
  | LpContinuous : LpCat
  | LpInteger : LpCat
deriving DecidableEq

/-- A PuLP decision variable: category, bounds, name. -/
structure LpVar where
  cat : LpCat
  lowBound : Option ℚ
  upBound : Option ℚ
  name : String
deriving DecidableEq

/-- The decision variable `x[(i, j)] = LpVariable(cat=LpInteger,
lowBound=0, upBound=1, name="x_i_j")`. -/
def xVar (i : ℕ) (j : ℤ) : LpVar :=
  { cat := .LpInteger,
    lowBound := some 0,
    upBound := some 1,
    name := "x_" ++ toString i ++ "_" ++ toString j }

/-- A rational `v` is an admissible value for a PuLP variable: within the
declared bounds and, for an integer-category variable, an integer. -/
def LpVar.feasible (vr : LpVar) (v : ℚ) : Prop :=
  (∀ lb, vr.lowBound = some lb → lb ≤ v) ∧
  (∀ ub, vr.upBound = some ub → v ≤ ub) ∧
  (vr.cat = .LpInteger → ∃ k : ℤ, v = (k : ℚ))

/-- `a[(i, j)] = j`: the coupon face value coefficient. -/
def aCoef (_ : ℕ) (j : ℤ) : ℚ :=
  (j : ℚ)

/-- `c[(i, j)] = df.loc[i]['prob_coupon_{j}']`: the acceptance probability
coefficient (the column always exists for `j` in the coupon list, so the
total `getD 0` reading agrees with the Python lookup there). -/
def cCoef (dff : DF) (i : ℕ) (j : ℤ) : ℚ :=
  (colLookup (probCols dff (rowOf dff i)) j).getD 0

/-- `d[(i, j)] = df.loc[i]['cltv'] - j`. -/
def dCoef (dff : DF) (i : ℕ) (j : ℤ) : ℚ :=
  (rowOf dff i).cltv - (j : ℚ)

/-- `b = df['cltv'].sum() / 10`: the campaign budget. -/
def budget (dff : DF) : ℚ :=
  (dff.rows.map Row.cltv).sum / 10

/-- A PuLP affine expression: a list of (variable index, coefficient)
terms plus a constant.  Variables are indexed by the (customer, coupon)
pair that keys the `x` dictionary. -/
structure LpAffine where
  terms : List ((ℕ × ℤ) × ℚ)
  const : ℚ
deriving DecidableEq

/-- Value of an affine expression under an assignment of the decision
variables. -/
def LpAffine.eval (e : LpAffine) (xv : ℕ × ℤ → ℚ) : ℚ :=
  e.const + (e.terms.map (fun t => t.2 * xv t.1)).sum

/-- PuLP constraint sense. -/
inductive LpSense : Type
  | LpConstraintLE : LpSense
  | LpConstraintEQ : LpSense
  | LpConstraintGE : LpSense
deriving DecidableEq

/-- A PuLP linear constraint `e (sense) rhs`. -/
structure LpConstraint where
  e : LpAffine
  sense : LpSense
  rhs : ℚ
  name : String
deriving DecidableEq

/-- An assignment satisfies a constraint. -/
def LpConstraint.holds (ct : LpConstraint) (xv : ℕ × ℤ → ℚ) : Prop :=
  match ct.sense with
  | .LpConstraintLE => ct.e.eval xv ≤ ct.rhs
  | .LpConstraintEQ => ct.e.eval xv = ct.rhs
  | .LpConstraintGE => ct.rhs ≤ ct.e.eval xv

/-- Restriction 1 for customer `i`: `lpSum(x[i, j] for j in
coupons_per_user[i]) == 1*(len(coupons_per_user[i]) > 0)`. -/
def userConstraint (dff : DF) (i : ℕ) : LpConstraint :=
  { e := { terms := (couponsPerUser dff i).map (fun j => ((i, j), 1)),
           const := 0 },
    sense := .LpConstraintEQ,
    rhs := if 0 < (couponsPerUser dff i).length then 1 else 0,
    name := "constraint_" ++ toString i }

/-- Restriction 2 (`constraints[-1]`): `lpSum(a[i, j]*x[i, j] for i, j)
<= b`. -/
def budgetConstraint (dff : DF) : LpConstraint :=
  { e := { terms := (setUsers dff).flatMap (fun i =>
             (couponsPerUser dff i).map (fun j => ((i, j), aCoef i j))),
           const := 0 },
    sense := .LpConstraintLE,
    rhs := budget dff,
    name := "constraint_b" }

/-- The objective `lpSum(x[i, j] * c[i, j] * d[i, j] for i, j)`. -/
def objective (dff : DF) : LpAffine :=
  { terms := (setUsers dff).flatMap (fun i =>
      (couponsPerUser dff i).map (fun j => ((i, j), cCoef dff i j * dCoef dff i j))),
    const := 0 }

/-- Optimization direction of a PuLP problem. -/
inductive LpObjSense : Type
  | LpMinimize : LpObjSense
  | LpMaximize : LpObjSense
deriving DecidableEq

/-- A PuLP problem: constraints (in insertion order: the per-user
constraints for keys `0..n-1`, then the budget constraint for key `-1`),
direction, and objective. -/
structure LpProblem where
  name : String
  constraintList : List LpConstraint
  objSense : LpObjSense
  obj : LpAffine

/-- `opt_model`: the full optimization problem assembled in the notebook. -/
def opt_model (dff : DF) : LpProblem :=
  { name := "Optimization Coupon Model",
    constraintList :=
      (setUsers dff).map (userConstraint dff) ++ [budgetConstraint dff],
    objSense := .LpMaximize,
    obj := objective dff }

/-! ### The optimized-policy ROI columns -/

/-- `prob_coupon_opt` for customer `i`: the acceptance probability of the
solver-assigned coupon `couponOpt i`, looked up among the
`prob_coupon_{j}` columns. -/
def prob_coupon_opt (dff : DF) (couponOpt : ℕ → ℤ) (i : ℕ) : Option ℚ :=
  colLookup (probCols dff (rowOf dff i)) (couponOpt i)

/-- `roi_opt` for customer `i`. -/
def roi_opt (dff : DF) (couponOpt : ℕ → ℤ) (i : ℕ) : Option ℚ :=
  (prob_coupon_opt dff couponOpt i).map
    (fun p => p * ((rowOf dff i).cltv - (couponOpt i : ℚ)))

/-- `ROI_OPT = df['roi_opt'].sum()`. -/
def ROI_OPT (dff : DF) (couponOpt : ℕ → ℤ) : Option ℚ :=
  (seqOption ((setUsers dff).map (roi_opt dff couponOpt))).map List.sum

/-! ### The notebook's concrete dataset (`data/synthetic_users.csv.gz`) -/

/-- A synthetic row with multiplier `m` and lifetime value `v`, as
produced by `create_customers` with 8 coupons. -/
def nbRow (m v : ℚ) : Row :=
  { probs := (List.range 8).map (fun (j : ℕ) => ((j : ℚ) + 1) * m), cltv := v }

/-- The dataset the notebook loads: coupons 4..11 and ten customers with
the multipliers and CLTVs shown in the notebook's output. -/
def notebookDF : DF :=
  { coupons := [4, 5, 6, 7, 8, 9, 10, 11],
    rows := [nbRow (6/100) 98, nbRow (6/100) 82, nbRow (3/100) 112,
             nbRow (1/100) 91, nbRow (6/100) 80, nbRow (1/100) 87,
             nbRow (4/100) 35, nbRow (6/100) 40, nbRow (4/100) 46,
             nbRow (1/100) 80] }

/-- The optimized coupon per customer read off the solver's variable
values in the notebook's output (`coupon_opt` column). -/
def couponOptNB : ℕ → ℤ :=
  fun i => ([11, 11, 11, 4, 11, 4, 4, 9, 6, 4] : List ℤ).getD i 0

/-! ### Helper lemmas -/

theorem seqOption_length {α : Type} {l : List (Option α)} {l' : List α}
    (h : seqOption l = some l') : l'.length = l.length := by
  induction l generalizing l' with
  | nil =>
    simp only [seqOption, Option.some.injEq] at h
    subst h
    rfl
  | cons o rest ih =>
    cases o with
    | none => simp [seqOption] at h
    | some a =>
      simp only [seqOption, Option.map_eq_some'] at h
      rcases h with ⟨lr, hrest, rfl⟩
      simp [ih hrest]

theorem seqOption_mem {α : Type} {l : List (Option α)} {l' : List α}
    (h : seqOption l = some l') {b : α} (hb : b ∈ l') : some b ∈ l := by
  induction l generalizing l' with
  | nil =>
    simp only [seqOption, Option.some.injEq] at h
    subst h
    simp at hb
  | cons o rest ih =>
    cases o with
    | none => simp [seqOption] at h
    | some a =>
      simp only [seqOption, Option.map_eq_some'] at h
      rcases h with ⟨lr, hrest, rfl⟩
      rcases List.mem_cons.mp hb with hba | hblr
      · subst hba
        exact List.mem_cons_self _ _
      · exact List.mem_cons_of_mem _ (ih hrest hblr)

theorem seqOption_map_of_isSome {α β : Type} (f : α → Option β) (d : β)
    (l : List α) (h : ∀ a ∈ l, (f a).isSome) :
    seqOption (l.map f) = some (l.map (fun a => (f a).getD d)) := by
  induction l with
  | nil => rfl
  | cons a rest ih =>
    obtain ⟨b, hb⟩ :=
      Option.isSome_iff_exists.mp (h a (List.mem_cons_self _ _))
    have ihr := ih (fun x hx => h x (List.mem_cons_of_mem _ hx))
    rw [List.map_cons, List.map_cons, hb]
    simp [seqOption, ihr, hb]

theorem choices_length {α : Type} {population : List α} {k : ℕ}
    {draws : ℕ → ℕ} {l : List α} (h : choices population k draws = some l) :
    l.length = k := by
  have := seqOption_length h
  simpa using this

theorem choices_mem {α : Type} {population : List α} {k : ℕ}
    {draws : ℕ → ℕ} {l : List α} (h : choices population k draws = some l)
    {m : α} (hm : m ∈ l) : m ∈ population := by
  have hsome := seqOption_mem h hm
  rcases List.mem_map.mp hsome with ⟨t, _, hget⟩
  exact List.get?_mem hget

theorem choices_empty_pos {α : Type} {k : ℕ} (draws : ℕ → ℕ)
    (hk : 0 < k) : choices ([] : List α) k draws = none := by
  cases k with
  | zero => omega
  | succ k' => simp [choices, List.range_succ_eq_map, seqOption]

theorem getD_mem_of_lt {α : Type} {l : List α} {i : ℕ}
    (h : i < l.length) (d : α) : l.getD i d ∈ l := by
  induction l generalizing i with
  | nil => simp at h
  | cons a rest ih =>
    cases i with
    | zero => simp
    | succ i' =>
      simp only [List.getD_cons_succ]
      exact List.mem_cons_of_mem _ (ih (by simpa using h))

theorem multsPop_mem {n : ℕ} {m : ℚ} (hm : m ∈ multsPop n) :
    0 < m ∧ m * 100 ≤ ((n - 1 : ℕ) : ℚ) := by
  rw [multsPop, List.mem_map] at hm
  obtain ⟨t, ht, rfl⟩ := hm
  rw [List.mem_range] at ht
  constructor
  · positivity
  · rw [div_mul_cancel₀ _ (by norm_num : (100 : ℚ) ≠ 0)]
    exact_mod_cast Nat.succ_le_of_lt ht

theorem colLookup_isSome_iff (cols : List (ℤ × ℚ)) (j : ℤ) :
    (colLookup cols j).isSome ↔ j ∈ cols.map Prod.fst := by
  induction cols with
  | nil => simp [colLookup]
  | cons kv rest ih =>
    obtain ⟨k, v⟩ := kv
    simp only [colLookup, List.map_cons, List.mem_cons]
    by_cases hj : j = k
    · simp [hj]
    · simp [hj, ih]

theorem flatMap_eval_sum (U : List ℕ) (C : ℕ → List ℤ) (g : ℕ → ℤ → ℚ)
    (xv : ℕ × ℤ → ℚ) :
    ((U.flatMap (fun i => (C i).map (fun j => (((i, j) : ℕ × ℤ), g i j)))).map
        (fun t => t.2 * xv t.1)).sum =
      (U.map (fun i => ((C i).map (fun j => g i j * xv (i, j))).sum)).sum := by
  induction U with
  | nil => simp
  | cons i rest ih =>
    simp only [List.flatMap_cons, List.map_append, List.sum_append,
      List.map_cons, List.sum_cons, List.map_map, ih]
    congr 1

theorem sum_01_countP (C : List ℤ) (f : ℤ → ℚ)
    (h01 : ∀ j ∈ C, f j = 0 ∨ f j = 1) :
    ((C.map f).sum = 0 ↔ C.countP (fun j => decide (f j = 1)) = 0) ∧
    ((C.map f).sum = 1 ↔ C.countP (fun j => decide (f j = 1)) = 1) := by
  induction C with
  | nil => simp
  | cons j rest ih =>
    have hrest := ih (fun a ha => h01 a (List.mem_cons_of_mem _ ha))
    have hnonneg : 0 ≤ (rest.map f).sum := by
      apply List.sum_nonneg
      intro x hx
      rcases List.mem_map.mp hx with ⟨a, ha, rfl⟩
      rcases h01 a (List.mem_cons_of_mem _ ha) with h | h <;> simp [h]
    rcases h01 j (List.mem_cons_self _ _) with hj | hj
    · have hd : (decide (f j = 1)) = false := by simp [hj]
      simp only [List.map_cons, List.sum_cons, List.countP_cons, hj, zero_add,
        hd, if_neg, Bool.false_eq_true, not_false_eq_true, add_zero]
      exact hrest
    · have hd : (decide (f j = 1)) = true := by simp [hj]
      simp only [List.map_cons, List.sum_cons, List.countP_cons, hj,
        decide_True, if_pos trivial]
      constructor
      · constructor
        · intro h
          exfalso
          linarith
        · intro h
          exact absurd h (Nat.succ_ne_zero _)
      · constructor
        · intro h
          have hsum0 : (rest.map f).sum = 0 := by linarith
          have h2 := hrest.1.mp hsum0
          rw [h2]
        · intro h
          have hcnt : rest.countP (fun a => decide (f a = 1)) = 0 :=
            Nat.succ_injective h
          have h2 := hrest.1.mpr hcnt
          linarith

/-! ### Claims about the optimization model -/

/-- C1: the objective of the formulated program equals the sum over every
customer `i` and every candidate coupon `j` of
`x[i,j] * (acceptance probability of coupon j for customer i) *
(CLTV of customer i - face value of coupon j)`, and the problem sense is
maximization. -/
theorem objective_is_expected_net_return (dff : DF) (xv : ℕ × ℤ → ℚ) :
    (opt_model dff).objSense = LpObjSense.LpMaximize ∧
    (opt_model dff).obj.eval xv =
      ((setUsers dff).map (fun i =>
        ((couponsPerUser dff i).map (fun j =>
          xv (i, j) * cCoef dff i j *
            ((rowOf dff i).cltv - (j : ℚ)))).sum)).sum := by
  refine ⟨rfl, ?_⟩
  show (objective dff).eval xv = _
  unfold objective LpAffine.eval
  rw [flatMap_eval_sum, zero_add]
  congr 1
  apply List.map_congr_left
  intro i _
  congr 1
  apply List.map_congr_left
  intro j _
  unfold dCoef
  ring

/-- C2: for every customer `i` (with a non-empty candidate coupon set), the
program contains the equality constraint forcing
`sum(x[i, j] for j in coupons_per_user[i]) = 1`; under binary values this
says exactly one candidate coupon is selected for `i`. -/
theorem userConstraint_forces_exactly_one_coupon (dff : DF) (i : ℕ)
    (hi : i ∈ setUsers dff) (hne : couponsPerUser dff i ≠ []) :
    userConstraint dff i ∈ (opt_model dff).constraintList ∧
    (userConstraint dff i).sense = LpSense.LpConstraintEQ ∧
    (userConstraint dff i).rhs = 1 ∧
    (∀ xv, (userConstraint dff i).holds xv ↔
      ((couponsPerUser dff i).map (fun j => xv (i, j))).sum = 1) ∧
    (∀ xv, (∀ j ∈ couponsPerUser dff i, xv (i, j) = 0 ∨ xv (i, j) = 1) →
      ((userConstraint dff i).holds xv ↔
        (couponsPerUser dff i).countP (fun j => decide (xv (i, j) = 1)) = 1)) := by
  have hrhs : (userConstraint dff i).rhs = 1 := by
    unfold userConstraint
    simp [List.length_pos.mpr hne]
  have hsum : ∀ xv : ℕ × ℤ → ℚ, (userConstraint dff i).e.eval xv =
      ((couponsPerUser dff i).map (fun j => xv (i, j))).sum := by
    intro xv
    unfold userConstraint LpAffine.eval
    simp only [List.map_map, zero_add]
    congr 1
    apply List.map_congr_left
    intro j _
    simp
  have hholds : ∀ xv : ℕ × ℤ → ℚ, (userConstraint dff i).holds xv ↔
      ((couponsPerUser dff i).map (fun j => xv (i, j))).sum = 1 := by
    intro xv
    show (userConstraint dff i).e.eval xv = (userConstraint dff i).rhs ↔ _
    rw [hsum, hrhs]
  refine ⟨?_, rfl, hrhs, hholds, ?_⟩
  · apply List.mem_append_left
    exact List.mem_map.mpr ⟨i, hi, rfl⟩
  · intro xv h01
    rw [hholds xv]
    exact (sum_01_countP (couponsPerUser dff i) (fun j => xv (i, j)) h01).2

/-- C2 witness: the per-customer constraint at customer 0 of the
notebook's dataset. -/
theorem userConstraint_forces_exactly_one_coupon_witness :
    userConstraint notebookDF 0 ∈ (opt_model notebookDF).constraintList ∧
    (userConstraint notebookDF 0).sense = LpSense.LpConstraintEQ ∧
    (userConstraint notebookDF 0).rhs = 1 ∧
    (∀ xv, (userConstraint notebookDF 0).holds xv ↔
      ((couponsPerUser notebookDF 0).map (fun j => xv (0, j))).sum = 1) ∧
    (∀ xv, (∀ j ∈ couponsPerUser notebookDF 0, xv (0, j) = 0 ∨ xv (0, j) = 1) →
      ((userConstraint notebookDF 0).holds xv ↔
        (couponsPerUser notebookDF 0).countP
          (fun j => decide (xv (0, j) = 1)) = 1)) :=
  userConstraint_forces_exactly_one_coupon notebookDF 0
    (by simp [setUsers, notebookDF])
    (by simp [couponsPerUser, notebookDF])

/-- C3: the program has a single inequality (budget) constraint; it bounds
`sum(j * x[i, j])` by `b`, and `b` is one tenth of the sum of all
customers' CLTVs. -/
theorem budgetConstraint_single_and_bounds_face_values (dff : DF) :
    ((opt_model dff).constraintList.filter
        (fun ct => ct.sense == LpSense.LpConstraintLE)) =
      [budgetConstraint dff] ∧
    (budgetConstraint dff).sense = LpSense.LpConstraintLE ∧
    (budgetConstraint dff).rhs = (dff.rows.map Row.cltv).sum / 10 ∧
    (∀ xv, (budgetConstraint dff).holds xv ↔
      ((setUsers dff).map (fun i =>
        ((couponsPerUser dff i).map
          (fun (j : ℤ) => (j : ℚ) * xv (i, j))).sum)).sum ≤
        (dff.rows.map Row.cltv).sum / 10) := by
  refine ⟨?_, rfl, rfl, ?_⟩
  · show (((setUsers dff).map (userConstraint dff) ++
        [budgetConstraint dff]).filter _) = _
    rw [List.filter_append]
    have h1 : ((setUsers dff).map (userConstraint dff)).filter
        (fun ct => ct.sense == LpSense.LpConstraintLE) = [] := by
      rw [List.filter_eq_nil_iff]
      intro ct hct
      rcases List.mem_map.mp hct with ⟨i, _, rfl⟩
      show ¬((userConstraint dff i).sense == LpSense.LpConstraintLE) = true
      simp [userConstraint]
    have h2 : ([budgetConstraint dff]).filter
        (fun ct => ct.sense == LpSense.LpConstraintLE) =
        [budgetConstraint dff] := by
      rw [List.filter_eq_self]
      intro ct hct
      rcases List.mem_singleton.mp hct with rfl
      show ((budgetConstraint dff).sense == LpSense.LpConstraintLE) = true
      simp [budgetConstraint]
    rw [h1, h2, List.nil_append]
  · intro xv
    show (budgetConstraint dff).e.eval xv ≤ (budgetConstraint dff).rhs ↔ _
    unfold budgetConstraint LpAffine.eval
    rw [flatMap_eval_sum, zero_add]
    exact Iff.rfl

/-- C7: every decision variable `x[(i, j)]` is integer-constrained with
lower bound 0 and upper bound 1, so its admissible values are exactly the
binary values 0 and 1. -/
theorem xVar_binary (i : ℕ) (j : ℤ) :
    (xVar i j).cat = LpCat.LpInteger ∧
    (xVar i j).lowBound = some 0 ∧
    (xVar i j).upBound = some 1 ∧
    (∀ v : ℚ, (xVar i j).feasible v ↔ (v = 0 ∨ v = 1)) := by
  refine ⟨rfl, rfl, rfl, fun v => ⟨?_, ?_⟩⟩
  · rintro ⟨hlb, hub, hint⟩
    obtain ⟨k, rfl⟩ := hint rfl
    have h0 : (0 : ℚ) ≤ (k : ℚ) := hlb 0 rfl
    have h1 : (k : ℚ) ≤ 1 := hub 1 rfl
    have h0' : (0 : ℤ) ≤ k := by exact_mod_cast h0
    have h1' : k ≤ 1 := by exact_mod_cast h1
    interval_cases k
    · left; norm_num
    · right; norm_num
  · rintro (rfl | rfl)
    · refine ⟨?_, ?_, ?_⟩
      · intro lb hlb
        injection hlb with h
        rw [← h]
      · intro ub hub
        injection hub with h
        rw [← h]
        norm_num
      · intro _
        exact ⟨0, by norm_num⟩
    · refine ⟨?_, ?_, ?_⟩
      · intro lb hlb
        injection hlb with h
        rw [← h]
        norm_num
      · intro ub hub
        injection hub with h
        rw [← h]
      · intro _
        exact ⟨1, by norm_num⟩

/-! ### Claims about the BAU policy -/

theorem roundHalfEven_nearest (q : ℚ) (m : ℤ) :
    |((roundHalfEven q : ℤ) : ℚ) - q| ≤ |(m : ℚ) - q| := by
  have hf : ((⌊q⌋ : ℤ) : ℚ) ≤ q := Int.floor_le q
  have hf1 : q < ((⌊q⌋ : ℤ) : ℚ) + 1 := Int.lt_floor_add_one q
  have hm : m ≤ ⌊q⌋ ∨ ⌊q⌋ + 1 ≤ m := by omega
  have hmq : (m : ℚ) ≤ ((⌊q⌋ : ℤ) : ℚ) ∨ ((⌊q⌋ : ℤ) : ℚ) + 1 ≤ (m : ℚ) := by
    rcases hm with h | h
    · left
      exact_mod_cast h
    · right
      exact_mod_cast (by exact_mod_cast h : ((⌊q⌋ + 1 : ℤ) : ℚ) ≤ (m : ℚ))
  unfold roundHalfEven
  split_ifs with h1 h2 h3
  · rcases hmq with hm' | hm'
    · refine le_abs.mpr (Or.inr ?_)
      rw [abs_of_nonpos (by linarith)]
      linarith
    · refine le_abs.mpr (Or.inl ?_)
      rw [abs_of_nonpos (by linarith)]
      linarith
  · rcases hmq with hm' | hm'
    · refine le_abs.mpr (Or.inr ?_)
      rw [abs_of_nonneg (by push_cast; linarith)]
      push_cast
      linarith
    · refine le_abs.mpr (Or.inl ?_)
      rw [abs_of_nonneg (by push_cast; linarith)]
      push_cast
      linarith
  · rcases hmq with hm' | hm'
    · refine le_abs.mpr (Or.inr ?_)
      rw [abs_of_nonpos (by linarith)]
      linarith
    · refine le_abs.mpr (Or.inl ?_)
      rw [abs_of_nonpos (by linarith)]
      linarith
  · rcases hmq with hm' | hm'
    · refine le_abs.mpr (Or.inr ?_)
      rw [abs_of_nonneg (by push_cast; linarith)]
      push_cast
      linarith
    · refine le_abs.mpr (Or.inl ?_)
      rw [abs_of_nonneg (by push_cast; linarith)]
      push_cast
      linarith

theorem roundHalfEven_eq_self_iff (q : ℚ) :
    ((roundHalfEven q : ℤ) : ℚ) = q ↔ ∃ k : ℤ, q = (k : ℚ) := by
  constructor
  · intro h
    exact ⟨roundHalfEven q, h.symm⟩
  · rintro ⟨k, rfl⟩
    have hfl : ⌊(k : ℚ)⌋ = k := Int.floor_intCast k
    unfold roundHalfEven
    rw [hfl, sub_self]
    norm_num

/-- C4 counterexample: customer 0 of the notebook's dataset has CLTV 98;
its BAU coupon is 10, which is not 10% of 98. -/
theorem coupon_bau_not_ten_percent_of_cltv :
    coupon_bau (nbRow (6/100) 98) = 10 ∧
    ((10 : ℤ) : ℚ) ≠ (nbRow (6/100) 98).cltv / 10 := by
  constructor
  · norm_num [coupon_bau, nbRow, roundHalfEven]
  · norm_num [nbRow]

/-- C4 (amended): every customer's BAU coupon is a nearest integer to 10%
of that customer's CLTV (ties resolved to an even integer by the rounding),
and it equals 10% of the CLTV exactly when 10% of the CLTV is an
integer. -/
theorem coupon_bau_rounds_ten_percent_of_cltv (r : Row) (m : ℤ) :
    |((coupon_bau r : ℤ) : ℚ) - r.cltv / 10| ≤ |(m : ℚ) - r.cltv / 10| ∧
    (((coupon_bau r : ℤ) : ℚ) = r.cltv / 10 ↔
      ∃ k : ℤ, r.cltv / 10 = (k : ℚ)) := by
  have h10 : r.cltv * (1 / 10) = r.cltv / 10 := by ring
  unfold coupon_bau
  rw [h10]
  exact ⟨roundHalfEven_nearest _ m, roundHalfEven_eq_self_iff _⟩

/-- C5: for each coupon policy (BAU and optimized), when every per-row
probability lookup succeeds the reported ROI equals the sum over all
customers of the acceptance probability of the assigned coupon times
(CLTV minus the assigned coupon's face value). -/
theorem ROI_is_sum_of_expected_net_returns (dff : DF) (couponOpt : ℕ → ℤ)
    (hbau : ∀ r ∈ dff.rows, (prob_coupon_bau dff r).isSome)
    (hopt : ∀ i ∈ setUsers dff, (prob_coupon_opt dff couponOpt i).isSome) :
    ROI_BAU dff = some ((dff.rows.map (fun r =>
        (prob_coupon_bau dff r).getD 0 *
          (r.cltv - (coupon_bau r : ℚ)))).sum) ∧
    ROI_OPT dff couponOpt = some (((setUsers dff).map (fun i =>
        (prob_coupon_opt dff couponOpt i).getD 0 *
          ((rowOf dff i).cltv - (couponOpt i : ℚ)))).sum) := by
  constructor
  · have hsome : ∀ r ∈ dff.rows, (roi_bau dff r).isSome := by
      intro r hr
      obtain ⟨p, hp⟩ := Option.isSome_iff_exists.mp (hbau r hr)
      unfold roi_bau
      rw [hp]
      rfl
    unfold ROI_BAU
    rw [seqOption_map_of_isSome (roi_bau dff) 0 dff.rows hsome,
      Option.map_some']
    congr 1
    congr 1
    apply List.map_congr_left
    intro r hr
    obtain ⟨p, hp⟩ := Option.isSome_iff_exists.mp (hbau r hr)
    unfold roi_bau
    rw [hp]
    simp
  · have hsome : ∀ i ∈ setUsers dff, (roi_opt dff couponOpt i).isSome := by
      intro i hi
      obtain ⟨p, hp⟩ := Option.isSome_iff_exists.mp (hopt i hi)
      unfold roi_opt
      rw [hp]
      rfl
    unfold ROI_OPT
    rw [seqOption_map_of_isSome (roi_opt dff couponOpt) 0 (setUsers dff)
      hsome, Option.map_some']
    congr 1
    congr 1
    apply List.map_congr_left
    intro i hi
    obtain ⟨p, hp⟩ := Option.isSome_iff_exists.mp (hopt i hi)
    unfold roi_opt
    rw [hp]
    simp

/-- C5 witness: the ROI identities at the notebook's concrete dataset and
solver assignment. -/
theorem ROI_is_sum_of_expected_net_returns_witness :
    ROI_BAU notebookDF = some ((notebookDF.rows.map (fun r =>
        (prob_coupon_bau notebookDF r).getD 0 *
          (r.cltv - (coupon_bau r : ℚ)))).sum) ∧
    ROI_OPT notebookDF couponOptNB =
      some (((setUsers notebookDF).map (fun i =>
        (prob_coupon_opt notebookDF couponOptNB i).getD 0 *
          ((rowOf notebookDF i).cltv - (couponOptNB i : ℚ)))).sum) :=
  ROI_is_sum_of_expected_net_returns notebookDF couponOptNB
    (by
      intro r hr
      fin_cases hr <;>
        norm_num [prob_coupon_bau, probCols, coupon_bau, roundHalfEven,
          notebookDF, nbRow, colLookup, List.range_succ])
    (by
      intro i hi
      fin_cases hi <;>
        norm_num [prob_coupon_opt, probCols, couponOptNB, rowOf,
          notebookDF, nbRow, colLookup, List.range_succ])

/-! ### Claims about the synthetic data generator -/

/-- C6 counterexample: with 14 customers and the notebook's own 8 coupon
values, a customer drawing the multiplier 13/100 gets an acceptance value
8 * 13/100 = 1.04 > 1, so not every generated value is a probability. -/
theorem create_customers_prob_above_one :
    ∃ dff : DF, create_customers 14 [4, 5, 6, 7, 8, 9, 10, 11]
        (fun _ => 12) (fun _ => 0) = some dff ∧
      ∃ r ∈ dff.rows, ∃ p ∈ r.probs, 1 < p := by
  refine ⟨_, rfl, ?_⟩
  norm_num [create_customers, choices, multsPop, cltvsPop, seqOption,
    List.range_succ]

/-- C6 (amended): every coupon-acceptance value produced by
`create_customers(n, c)` is nonnegative, and lies in `[0, 1]` provided
`len(c) * (n - 1) ≤ 100` (as with the notebook's own `n = 10` and 8
coupons); without that bound values can exceed 1. -/
theorem create_customers_probs_bounded (n : ℕ) (c : List ℤ)
    (multDraws cltvDraws : ℕ → ℕ) (dff : DF)
    (h : create_customers n c multDraws cltvDraws = some dff)
    (r : Row) (hr : r ∈ dff.rows) (p : ℚ) (hp : p ∈ r.probs) :
    0 ≤ p ∧ (c.length * (n - 1) ≤ 100 → p ≤ 1) := by
  unfold create_customers at h
  cases hm : choices (multsPop n) n multDraws with
  | none =>
    rw [hm] at h
    simp at h
  | some randommults =>
    cases hcv : choices cltvsPop n cltvDraws with
    | none =>
      rw [hm, hcv] at h
      simp at h
    | some randomcltvs =>
      rw [hm, hcv] at h
      simp only [Option.some.injEq] at h
      subst h
      simp only [List.mem_map, List.mem_range] at hr
      rcases hr with ⟨i, hi, rfl⟩
      simp only [List.mem_map, List.mem_range] at hp
      rcases hp with ⟨j, hj, rfl⟩
      have hlen : randommults.length = n := choices_length hm
      have hmem : randommults.getD i 0 ∈ randommults :=
        getD_mem_of_lt (by rw [hlen]; exact hi) 0
      obtain ⟨hm0, hm1⟩ := multsPop_mem (choices_mem hm hmem)
      constructor
      · exact mul_nonneg (by positivity) hm0.le
      · intro hbound
        have hj1 : (j : ℚ) + 1 ≤ (c.length : ℚ) := by
          exact_mod_cast Nat.succ_le_of_lt hj
        have hmle : randommults.getD i 0 ≤ ((n - 1 : ℕ) : ℚ) / 100 := by
          linarith
        have hcast : (c.length : ℚ) * ((n - 1 : ℕ) : ℚ) ≤ 100 := by
          exact_mod_cast hbound
        have h1 : ((j : ℚ) + 1) * randommults.getD i 0 ≤
            (c.length : ℚ) * (((n - 1 : ℕ) : ℚ) / 100) :=
          mul_le_mul hj1 hmle hm0.le (by positivity)
        have heq : (c.length : ℚ) * (((n - 1 : ℕ) : ℚ) / 100) =
            ((c.length : ℚ) * ((n - 1 : ℕ) : ℚ)) / 100 := by
          ring
        rw [heq] at h1
        linarith

/-- C6 witness: the amended bound at a concrete successful generation. -/
theorem create_customers_probs_bounded_witness :
    0 ≤ (1 / 100 : ℚ) ∧
    (([4] : List ℤ).length * (3 - 1) ≤ 100 → (1 / 100 : ℚ) ≤ 1) :=
  create_customers_probs_bounded 3 [4] (fun _ => 0) (fun _ => 0)
    ⟨[4], [⟨[1/100], 30⟩, ⟨[1/100], 30⟩, ⟨[1/100], 30⟩]⟩
    (by norm_num [create_customers, choices, multsPop, cltvsPop, seqOption,
      List.range_succ])
    ⟨[1/100], 30⟩ (by norm_num) (1/100) (by norm_num)

/-- C8: for every generated customer there is a multiplier `m ≥ 0` (the
customer's drawn multiplier) such that the acceptance probability at
coupon index `j` is `(j+1) * m`; hence the probabilities are
non-decreasing in the coupon index, and strictly increasing whenever the
multiplier is positive. -/
theorem create_customers_probs_monotone (n : ℕ) (c : List ℤ)
    (multDraws cltvDraws : ℕ → ℕ) (dff : DF)
    (h : create_customers n c multDraws cltvDraws = some dff)
    (r : Row) (hr : r ∈ dff.rows) :
    ∃ m : ℚ, 0 ≤ m ∧
      (∀ j, j < c.length → r.probs.getD j 0 = ((j : ℚ) + 1) * m) ∧
      (∀ j1 j2, j1 < j2 → j2 < c.length →
        r.probs.getD j1 0 ≤ r.probs.getD j2 0 ∧
        (0 < m → r.probs.getD j1 0 < r.probs.getD j2 0)) := by
  unfold create_customers at h
  cases hm : choices (multsPop n) n multDraws with
  | none =>
    rw [hm] at h
    simp at h
  | some randommults =>
    cases hcv : choices cltvsPop n cltvDraws with
    | none =>
      rw [hm, hcv] at h
      simp at h
    | some randomcltvs =>
      rw [hm, hcv] at h
      simp only [Option.some.injEq] at h
      subst h
      simp only [List.mem_map, List.mem_range] at hr
      rcases hr with ⟨i, hi, rfl⟩
      have hlen : randommults.length = n := choices_length hm
      have hmem : randommults.getD i 0 ∈ randommults :=
        getD_mem_of_lt (by rw [hlen]; exact hi) 0
      obtain ⟨hm0, _⟩ := multsPop_mem (choices_mem hm hmem)
      refine ⟨randommults.getD i 0, hm0.le, ?_, ?_⟩
      · intro j hj
        rw [List.getD_eq_getElem _ _ (by simpa using hj), List.getElem_map,
          List.getElem_range]
      · intro j1 j2 h12 hj2
        have hg1 : (List.map (fun (j : ℕ) => ((j : ℚ) + 1) *
            randommults.getD i 0) (List.range c.length)).getD j1 0 =
            ((j1 : ℚ) + 1) * randommults.getD i 0 := by
          rw [List.getD_eq_getElem _ _ (by simpa using lt_trans h12 hj2),
            List.getElem_map, List.getElem_range]
        have hg2 : (List.map (fun (j : ℕ) => ((j : ℚ) + 1) *
            randommults.getD i 0) (List.range c.length)).getD j2 0 =
            ((j2 : ℚ) + 1) * randommults.getD i 0 := by
          rw [List.getD_eq_getElem _ _ (by simpa using hj2),
            List.getElem_map, List.getElem_range]
        rw [hg1, hg2]
        have hcast : (j1 : ℚ) + 1 ≤ (j2 : ℚ) + 1 := by
          have : (j1 : ℚ) ≤ (j2 : ℚ) := by exact_mod_cast h12.le
          linarith
        constructor
        · exact mul_le_mul_of_nonneg_right hcast hm0.le
        · intro hpos
          have hlt : (j1 : ℚ) + 1 < (j2 : ℚ) + 1 := by
            have : (j1 : ℚ) < (j2 : ℚ) := by exact_mod_cast h12
            linarith
          exact mul_lt_mul_of_pos_right hlt hpos

/-- C8 witness: the monotonicity statement at a concrete successful
generation (three customers, two coupons, all draws 0). -/
theorem create_customers_probs_monotone_witness :
    ∃ m : ℚ, 0 ≤ m ∧
      (∀ j, j < ([4, 5] : List ℤ).length →
        (Row.mk [1/100, 2/100] 30).probs.getD j 0 = ((j : ℚ) + 1) * m) ∧
      (∀ j1 j2, j1 < j2 → j2 < ([4, 5] : List ℤ).length →
        (Row.mk [1/100, 2/100] 30).probs.getD j1 0 ≤
          (Row.mk [1/100, 2/100] 30).probs.getD j2 0 ∧
        (0 < m → (Row.mk [1/100, 2/100] 30).probs.getD j1 0 <
          (Row.mk [1/100, 2/100] 30).probs.getD j2 0)) :=
  create_customers_probs_monotone 3 [4, 5] (fun _ => 0) (fun _ => 0)
    ⟨[4, 5], [⟨[1/100, 2/100], 30⟩, ⟨[1/100, 2/100], 30⟩,
      ⟨[1/100, 2/100], 30⟩]⟩
    (by norm_num [create_customers, choices, multsPop, cltvsPop, seqOption,
      List.range_succ])
    ⟨[1/100, 2/100], 30⟩ (by norm_num)

/-- C9: with the dataset's coupon columns 4..11, the BAU probability
lookup for an integer CLTV in the generator's domain [30, 120) succeeds
exactly when the rounded coupon `round(0.1*cltv)` is one of the column
keys, and it raises (returns `none`, Python's `KeyError`) exactly for
CLTV below 35 or at least 115. -/
theorem prob_coupon_bau_domain (cltv : ℤ) (h30 : 30 ≤ cltv)
    (h120 : cltv < 120) (probs : List ℚ) (hlen : probs.length = 8)
    (rows : List Row) :
    ((prob_coupon_bau ⟨[4, 5, 6, 7, 8, 9, 10, 11], rows⟩
        ⟨probs, (cltv : ℚ)⟩).isSome ↔
      coupon_bau ⟨probs, (cltv : ℚ)⟩ ∈ ([4, 5, 6, 7, 8, 9, 10, 11] : List ℤ)) ∧
    (prob_coupon_bau ⟨[4, 5, 6, 7, 8, 9, 10, 11], rows⟩
        ⟨probs, (cltv : ℚ)⟩ = none ↔
      (cltv < 35 ∨ 115 ≤ cltv)) := by
  have hfst : ((([4, 5, 6, 7, 8, 9, 10, 11] : List ℤ)).zip probs).map
      Prod.fst = [4, 5, 6, 7, 8, 9, 10, 11] :=
    List.map_fst_zip _ _ (by rw [hlen]; norm_num)
  have h1 : (prob_coupon_bau ⟨[4, 5, 6, 7, 8, 9, 10, 11], rows⟩
      ⟨probs, (cltv : ℚ)⟩).isSome ↔
      coupon_bau ⟨probs, (cltv : ℚ)⟩ ∈
        ([4, 5, 6, 7, 8, 9, 10, 11] : List ℤ) := by
    unfold prob_coupon_bau probCols
    rw [colLookup_isSome_iff, hfst]
  refine ⟨h1, ?_⟩
  rw [← Option.not_isSome_iff_eq_none, h1]
  have hkey : coupon_bau ⟨probs, (cltv : ℚ)⟩ =
      roundHalfEven ((cltv : ℚ) * (1 / 10)) := rfl
  have hiff : roundHalfEven ((cltv : ℚ) * (1 / 10)) ∈
      ([4, 5, 6, 7, 8, 9, 10, 11] : List ℤ) ↔ (35 ≤ cltv ∧ cltv ≤ 114) := by
    interval_cases cltv <;> norm_num [roundHalfEven]
  rw [hkey, hiff]
  omega

/-- C9 witness: a CLTV of 34 (below 35) makes the BAU lookup fail. -/
theorem prob_coupon_bau_domain_witness :
    ((prob_coupon_bau ⟨[4, 5, 6, 7, 8, 9, 10, 11], []⟩
        ⟨[0, 0, 0, 0, 0, 0, 0, 0], ((34 : ℤ) : ℚ)⟩).isSome ↔
      coupon_bau ⟨[0, 0, 0, 0, 0, 0, 0, 0], ((34 : ℤ) : ℚ)⟩ ∈
        ([4, 5, 6, 7, 8, 9, 10, 11] : List ℤ)) ∧
    (prob_coupon_bau ⟨[4, 5, 6, 7, 8, 9, 10, 11], []⟩
        ⟨[0, 0, 0, 0, 0, 0, 0, 0], ((34 : ℤ) : ℚ)⟩ = none ↔
      ((34 : ℤ) < 35 ∨ 115 ≤ (34 : ℤ))) :=
  prob_coupon_bau_domain 34 (by norm_num) (by norm_num)
    [0, 0, 0, 0, 0, 0, 0, 0] (by norm_num) []

/-- C10 counterexample: `create_customers(0, c)` does not fail: for
`n = 0` both `choices` calls draw zero samples and succeed, and an empty
dataframe is returned — so it is not the case that every `n < 2` fails. -/
theorem create_customers_zero_succeeds :
    create_customers 0 [4] (fun _ => 0) (fun _ => 0) = some ⟨[4], []⟩ ∧
    (0 : ℕ) < 2 :=
  ⟨rfl, by norm_num⟩

/-- C10 (amended): `create_customers(n, c)` fails among `n < 2` exactly
for `n = 1`: the multiplier population `arange(1, n, 1)/100` is empty and
`random.choices` must draw `k = 1` sample from it (Python's `IndexError`),
whereas for `n = 0` zero samples are drawn and an empty dataframe is
returned.  The multiplier population depends only on `n`, never on the
coupon array. -/
theorem create_customers_one_fails_zero_succeeds (c : List ℤ)
    (multDraws cltvDraws : ℕ → ℕ) :
    create_customers 1 c multDraws cltvDraws = none ∧
    create_customers 0 c multDraws cltvDraws = some ⟨c, []⟩ := by
  constructor
  · have h : choices (multsPop 1) 1 multDraws = none := by
      simp [choices, multsPop, List.range_succ, seqOption]
    unfold create_customers
    rw [h]
  · rfl

end CouponOpt
